import Mathlib

/-!
Verification of the smart-collection data model and membership engine
(products/models/collection.py).

The repository file is a declarative Django data model: choice tables,
the CustomCollection, Collect and CollectionRule models, and a handful of
presentation helpers (all_tags, default_sort_by, adjecant_products, ...).
Pure logic from that file is embedded directly.  Engine operations that
the specification describes but the repository does not implement
(rule matching, the membership index enumeration, rule creation at the
storage boundary) are modelled from the specification and are marked as
such in their doc comments.

Machine integers are modelled as Nat: positions come from PositionField,
which only ever stores non-negative values, and Python integers do not
overflow.
-/

/-- Product attributes referenced by this file: identifier, title, type,
vendor, handle (URL slug) and the tag set.  The Product model itself lives
in another file of the repository; only the fields used here are kept. -/
structure Product where
  id : Nat
  title : String
  product_type : String
  vendor : String
  handle : String
  tags : List String
deriving DecidableEq

/-- CustomCollection fields used by the claims: the disjunctive flag
(products can match any condition) and the sort_order choice. -/
structure CustomCollection where
  title : String
  disjunctive : Bool
  sort_order : String
deriving DecidableEq

/-- Collect: the membership record tying a product to a collection, with
its position and the derived sort_value string. -/
structure Collect where
  collection : Nat
  product : Nat
  position : Nat
  featured : Bool
  sort_value : String
deriving DecidableEq

/-- CollectionRule: one predicate (column, relation, condition) of a
collection, with its position among the collection's rules. -/
structure CollectionRule where
  collection : Nat
  column : String
  condition : String
  position : Nat
  relation : String
deriving DecidableEq

/-- COLUMN_CHOICES of collection.py, keys only: the display labels are
lazy translation proxies and play no part in validation.  Note the source
spells the inventory key as the misspelt variat_inventory. -/
def COLUMN_CHOICES : List String :=
  ["title", "type", "vendor", "variant_price", "tag",
   "variant_compare_at_price", "variant_weight", "variat_inventory",
   "variant_title"]

/-- RELATION_CHOICES of collection.py, keys only. -/
def RELATION_CHOICES : List String :=
  ["equals", "not_equals", "greater_than", "less_than",
   "starts_with", "ends_with", "contains", "not_contains"]

/-- SORT_CHOICES of collection.py, keys only. -/
def SORT_CHOICES : List String :=
  ["manual", "best-selling", "alpha-asc", "alpha-desc",
   "price-desc", "price-asc", "created-descending", "created"]

/-- ChoiceField validation (the field class lives in utils.fields, outside
this file): a submitted value is accepted exactly when it is one of the
declared choice keys. -/
def validChoice (choices : List String) (v : String) : Bool :=
  choices.contains v

/-- default_sort_by's literal mapping from the stored sort_order to the
template-facing sort key.  Its keys differ from SORT_CHOICES in one place:
the mapping has created-desc where SORT_CHOICES has created-descending. -/
def default_sort_by_mapping : List (String × String) :=
  [("alpha-asc", "title-descending"),
   ("alpha-desc", "title-asc"),
   ("best-selling", "best-selling"),
   ("created", "created-ascending"),
   ("created-desc", "created-descending"),
   ("manual", "manual"),
   ("price-asc", "price-ascending"),
   ("price-desc", "price-descending")]

/-- default_sort_by: a Python dict subscript raising KeyError on a missing
key, embedded as an Option-valued lookup (none models the raised KeyError). -/
def default_sort_by (c : CustomCollection) : Option String :=
  default_sort_by_mapping.lookup c.sort_order

/-- C7: the set of accepted sort_order values is exactly the eight declared
sort modes: manual, best-selling, alphabetical ascending and descending,
price descending and ascending, and created descending and ascending. -/
theorem C7_sort_order_choices (s : String) :
    validChoice SORT_CHOICES s = true ↔
      (s = "manual" ∨ s = "best-selling" ∨ s = "alpha-asc" ∨ s = "alpha-desc" ∨
       s = "price-desc" ∨ s = "price-asc" ∨ s = "created-descending" ∨ s = "created") := by
  simp [validChoice, SORT_CHOICES, List.contains]

/-- C5: the code rejects the column value variant_inventory that the
specification permits, and instead accepts the misspelt key
variat_inventory; all other eight specified columns are accepted. -/
theorem C5_column_choices_divergence :
    validChoice COLUMN_CHOICES "variant_inventory" = false ∧
    validChoice COLUMN_CHOICES "variat_inventory" = true ∧
    (["title", "type", "vendor", "variant_price", "tag",
      "variant_compare_at_price", "variant_weight",
      "variant_title"].all (validChoice COLUMN_CHOICES)) = true := by
  decide

/-- C8: the sort_order value created-descending is an accepted choice, yet
default_sort_by raises KeyError on it (modelled as none): the mapping's
keys do not cover the declared choices.  Every other declared choice is
covered. -/
theorem C8_default_sort_by_gap :
    validChoice SORT_CHOICES "created-descending" = true ∧
    default_sort_by ⟨"c", false, "created-descending"⟩ = none ∧
    (["manual", "best-selling", "alpha-asc", "alpha-desc",
      "price-desc", "price-asc", "created"].all
        (fun s => (default_sort_by ⟨"c", false, s⟩).isSome)) = true := by
  decide

/-- Modelled from the spec: the Rule Set Evaluator (section 4.2) is not
implemented in the repository (collection.py only declares the data model
and notes in CollectionRule's docstring that membership must be
recalculated); the combination contract is embedded here.  A collection
with zero rules never matches; otherwise the disjunctive flag selects OR
over the rules and its default false selects AND.  The Predicate Evaluator
verdict is passed in as evalRule. -/
def collection_matches (evalRule : Product → CollectionRule → Bool)
    (p : Product) (c : CustomCollection) (rules : List CollectionRule) : Bool :=
  if rules.isEmpty then false
  else if c.disjunctive then rules.any (evalRule p)
  else rules.all (evalRule p)

/-- C1: with the disjunctive flag false, a product is a member exactly when
the collection has at least one rule and every rule evaluates to true for
the product; in particular a zero-rule collection has no automatic member. -/
theorem C1_conjunctive_membership (evalRule : Product → CollectionRule → Bool)
    (p : Product) (c : CustomCollection) (rules : List CollectionRule)
    (hconj : c.disjunctive = false) :
    collection_matches evalRule p c rules = true ↔
      (rules ≠ [] ∧ ∀ r ∈ rules, evalRule p r = true) := by
  cases rules with
  | nil => simp [collection_matches]
  | cons a t => simp [collection_matches, hconj, List.all_eq_true]

/-- Sample product used to instantiate the hypotheses of the theorems. -/
def sampleProduct : Product :=
  ⟨1, "Auckland", "poster", "Acme", "auckland", ["sale"]⟩

/-- Sample conjunctive collection. -/
def sampleCollection : CustomCollection :=
  ⟨"Cityscapes", false, "manual"⟩

/-- Sample rule: vendor equals Acme. -/
def sampleRule : CollectionRule :=
  ⟨1, "vendor", "Acme", 0, "equals"⟩

/-- Sample predicate verdict comparing the vendor against the condition. -/
def vendorEquals : Product → CollectionRule → Bool :=
  fun p r => p.vendor == r.condition

theorem C1_conjunctive_membership_witness :
    sampleCollection.disjunctive = false ∧
    (collection_matches vendorEquals sampleProduct sampleCollection [sampleRule] = true ↔
      ([sampleRule] ≠ [] ∧ ∀ r ∈ [sampleRule], vendorEquals sampleProduct r = true)) :=
  ⟨rfl, C1_conjunctive_membership vendorEquals sampleProduct sampleCollection [sampleRule] rfl⟩

/-- The tuple that CollectionRule's Meta declares unique_together. -/
def ruleKey (r : CollectionRule) : Nat × String × String × String :=
  (r.collection, r.column, r.condition, r.relation)

/-- Modelled from the spec: rule creation at the storage boundary.  The
repository only declares the constraint (Meta.unique_together on
collection, column, condition, relation); the database enforcement is
embedded as a create operation that refuses a rule whose tuple is already
present and otherwise appends it. -/
def create_rule (rules : List CollectionRule) (r : CollectionRule) :
    Option (List CollectionRule) :=
  if rules.any (fun s => ruleKey s == ruleKey r) then none
  else some (rules ++ [r])

/-- C4: creating a second rule with the same collection, column, condition
and relation as an existing rule is rejected, and a successful creation
preserves the invariant that distinct rules have differing tuples. -/
theorem C4_unique_together :
    (∀ (rules : List CollectionRule) (r : CollectionRule),
      (∃ s ∈ rules, ruleKey s = ruleKey r) → create_rule rules r = none) ∧
    (∀ (rules : List CollectionRule) (r : CollectionRule) (rules' : List CollectionRule),
      List.Pairwise (fun a b => ruleKey a ≠ ruleKey b) rules →
      create_rule rules r = some rules' →
      List.Pairwise (fun a b => ruleKey a ≠ ruleKey b) rules') := by
  constructor
  · intro rules r ⟨s, hs, hk⟩
    have : rules.any (fun s => ruleKey s == ruleKey r) = true :=
      List.any_eq_true.mpr ⟨s, hs, beq_iff_eq.mpr hk⟩
    simp [create_rule, this]
  · intro rules r rules' hpw hcreate
    by_cases hdup : rules.any (fun s => ruleKey s == ruleKey r) = true
    · simp [create_rule, hdup] at hcreate
    · simp [create_rule, hdup] at hcreate
      subst hcreate
      rw [List.pairwise_append]
      refine ⟨hpw, List.pairwise_singleton _ _, ?_⟩
      intro a ha b hb
      simp only [List.mem_singleton] at hb
      subst hb
      intro hk
      exact hdup (List.any_eq_true.mpr ⟨a, ha, beq_iff_eq.mpr hk⟩)

theorem C4_unique_together_witness :
    create_rule [sampleRule] sampleRule = none :=
  C4_unique_together.1 [sampleRule] sampleRule ⟨sampleRule, List.mem_singleton.mpr rfl, rfl⟩

/-- Evaluation order of a collection's rules, from CollectionRule's
Meta.ordering, which is the single key position: enumerating a
collection's rules yields them sorted by position ascending.  The sort
itself is performed by the database; it is embedded as an insertion sort
over the rules that belong to the collection. -/
def rules_of (rules : List CollectionRule) (coll : Nat) : List CollectionRule :=
  List.insertionSort (fun a b => a.position ≤ b.position)
    (rules.filter (fun r => r.collection == coll))

instance : IsTotal CollectionRule (fun a b => a.position ≤ b.position) :=
  ⟨fun a b => Nat.le_total a.position b.position⟩

instance : IsTrans CollectionRule (fun a b => a.position ≤ b.position) :=
  ⟨fun _ _ _ => Nat.le_trans⟩

/-- C6: enumerating a collection's rules yields exactly the rules that
belong to the collection, sorted by position ascending. -/
theorem C6_rules_ordered (rules : List CollectionRule) (coll : Nat) :
    List.Sorted (fun a b => a.position ≤ b.position) (rules_of rules coll) ∧
    (rules_of rules coll).Perm (rules.filter (fun r => r.collection == coll)) ∧
    ∀ r ∈ rules_of rules coll, r.collection = coll := by
  refine ⟨List.sorted_insertionSort _ _, List.perm_insertionSort _ _, ?_⟩
  intro r hr
  have hmem : r ∈ rules.filter (fun r => r.collection == coll) :=
    (List.perm_insertionSort _ _).mem_iff.mp hr
  have := List.of_mem_filter hmem
  exact beq_iff_eq.mp this

/-- Python set.union as used in all_tags: it returns a fresh set and does
not mutate its receiver. -/
def pySetUnion (s t : List String) : List String :=
  s ++ t.filter (fun x => !s.contains x)

/-- all_tags of CustomCollection, embedded line by line: the loop body
calls pySetUnion but discards its result, exactly as the source line
tags.union(p.tags) discards the fresh set, so the accumulating set stays
as initialised and the sorted result is built from it. -/
def all_tags (products : List Product) : List String :=
  let tags : List String := []
  let tags := products.foldl (fun tags p =>
    let _discarded := pySetUnion tags p.tags
    tags) tags
  List.insertionSort (fun a b : String => a ≤ b) tags

/-- C9: all_tags returns the empty list whatever the products and their
tags are, because the union computed in the loop is never accumulated. -/
theorem C9_all_tags_empty (products : List Product) : all_tags products = [] := by
  have hfold : ∀ (l : List Product),
      l.foldl (fun (tags : List String) p =>
        let _discarded := pySetUnion tags p.tags
        tags) [] = [] := by
    intro l
    induction l with
    | nil => rfl
    | cons p t ih => exact ih
  simp [all_tags, hfold products]

/-- The w low-order decimal digits of n, most significant first.  For
n below 10 to the w this is exactly the width-w zero-padded decimal
rendering of n that the Python expression format(n, '0 followed by w')
produces. -/
def padDigits : Nat → Nat → List Nat
  | 0, _ => []
  | w + 1, n => n / 10 ^ w :: padDigits w (n % 10 ^ w)

/-- The character of one decimal digit (codepoint 48 is the zero digit). -/
def digitChar (d : Nat) : Char := Char.ofNat (48 + d)

/-- format(position, '010') of Collect.save: the zero-padded width-10
decimal rendering of the position.  Positions beyond ten digits cannot be
stored in the max_length=10 sort_value column; all stored positions
satisfy position < 10 ^ 10 and there the rendering is exactly these ten
digit characters. -/
def format010 (n : Nat) : String := String.mk ((padDigits 10 n).map digitChar)

/-- Collect.save: assigns sort_value from position, then persists. -/
def Collect.save (c : Collect) : Collect :=
  { c with sort_value := format010 c.position }

/-- Lexicographic strict order on strings: the standard lexicographic
extension of the character order to the character sequences. -/
def strLexLt (s t : String) : Prop :=
  List.Lex (fun a b : Char => a < b) s.data t.data

theorem format010_sample : format010 42 = "0000000042" := by decide

theorem padDigits_length : ∀ (w n : Nat), (padDigits w n).length = w := by
  intro w
  induction w with
  | zero => intro n; rfl
  | succ w ih => intro n; simp [padDigits, ih]

theorem padDigits_digit_lt : ∀ (w n : Nat), n < 10 ^ w → ∀ d ∈ padDigits w n, d < 10 := by
  intro w
  induction w with
  | zero => intro n _ d hd; simp [padDigits] at hd
  | succ w ih =>
    intro n hn d hd
    have hB : 0 < 10 ^ w := pow_pos (by norm_num) w
    rcases List.mem_cons.mp hd with h | h
    · subst h
      rw [Nat.div_lt_iff_lt_mul hB]
      calc n < 10 ^ (w + 1) := hn
        _ = 10 * 10 ^ w := by rw [pow_succ, Nat.mul_comm]
    · exact ih (n % 10 ^ w) (Nat.mod_lt n hB) d h

theorem lex_cons_iff {α : Type} {r : α → α → Prop} {a b : α} {s t : List α} :
    List.Lex r (a :: s) (b :: t) ↔ r a b ∨ (a = b ∧ List.Lex r s t) := by
  constructor
  · intro h
    cases h with
    | cons h => exact Or.inr ⟨rfl, h⟩
    | rel h => exact Or.inl h
  · rintro (h | ⟨rfl, h⟩)
    · exact List.Lex.rel h
    · exact List.Lex.cons h

theorem block_lt_iff {B a b r1 r2 : Nat} (h1 : r1 < B) (h2 : r2 < B) :
    B * a + r1 < B * b + r2 ↔ (a < b ∨ (a = b ∧ r1 < r2)) := by
  constructor
  · intro h
    rcases Nat.lt_trichotomy a b with hab | hab | hab
    · exact Or.inl hab
    · subst hab
      exact Or.inr ⟨rfl, Nat.lt_of_add_lt_add_left h⟩
    · exfalso
      have hba : B * b + r2 < B * a + r1 :=
        calc B * b + r2 < B * b + B := Nat.add_lt_add_left h2 _
          _ = B * (b + 1) := (Nat.mul_succ B b).symm
          _ ≤ B * a := Nat.mul_le_mul (Nat.le_refl B) hab
          _ ≤ B * a + r1 := Nat.le_add_right _ _
      exact Nat.lt_asymm hba h
  · rintro (hab | ⟨rfl, hr⟩)
    · calc B * a + r1 < B * a + B := Nat.add_lt_add_left h1 _
        _ = B * (a + 1) := (Nat.mul_succ B a).symm
        _ ≤ B * b := Nat.mul_le_mul (Nat.le_refl B) hab
        _ ≤ B * b + r2 := Nat.le_add_right _ _
    · exact Nat.add_lt_add_left hr _

theorem lex_padDigits : ∀ (w m n : Nat), m < 10 ^ w → n < 10 ^ w →
    (List.Lex (fun a b : Nat => a < b) (padDigits w m) (padDigits w n) ↔ m < n) := by
  intro w
  induction w with
  | zero =>
    intro m n hm hn
    have hm0 : m = 0 := Nat.lt_one_iff.mp hm
    have hn0 : n = 0 := Nat.lt_one_iff.mp hn
    subst hm0; subst hn0
    simp [padDigits]
  | succ w ih =>
    intro m n hm hn
    have hB : 0 < 10 ^ w := pow_pos (by norm_num) w
    have hm' : m % 10 ^ w < 10 ^ w := Nat.mod_lt m hB
    have hn' : n % 10 ^ w < 10 ^ w := Nat.mod_lt n hB
    simp only [padDigits]
    rw [lex_cons_iff, ih _ _ hm' hn', ← block_lt_iff hm' hn',
      Nat.div_add_mod, Nat.div_add_mod]

theorem padDigits_inj : ∀ (w m n : Nat), m < 10 ^ w → n < 10 ^ w →
    (padDigits w m = padDigits w n ↔ m = n) := by
  intro w
  induction w with
  | zero =>
    intro m n hm hn
    have hm0 : m = 0 := Nat.lt_one_iff.mp hm
    have hn0 : n = 0 := Nat.lt_one_iff.mp hn
    subst hm0; subst hn0
    simp
  | succ w ih =>
    intro m n hm hn
    have hB : 0 < 10 ^ w := pow_pos (by norm_num) w
    have hm' : m % 10 ^ w < 10 ^ w := Nat.mod_lt m hB
    have hn' : n % 10 ^ w < 10 ^ w := Nat.mod_lt n hB
    simp only [padDigits, List.cons.injEq]
    rw [ih _ _ hm' hn']
    constructor
    · rintro ⟨hq, hr⟩
      calc m = 10 ^ w * (m / 10 ^ w) + m % 10 ^ w := (Nat.div_add_mod m (10 ^ w)).symm
        _ = 10 ^ w * (n / 10 ^ w) + n % 10 ^ w := by rw [hq, hr]
        _ = n := Nat.div_add_mod n (10 ^ w)
    · rintro rfl
      exact ⟨rfl, rfl⟩

theorem digitChar_lt_iff : ∀ a, a < 10 → ∀ b, b < 10 →
    (digitChar a < digitChar b ↔ a < b) := by decide

theorem digitChar_inj_iff : ∀ a, a < 10 → ∀ b, b < 10 →
    (digitChar a = digitChar b ↔ a = b) := by decide

theorem lex_map_digitChar : ∀ (s t : List Nat),
    (∀ d ∈ s, d < 10) → (∀ d ∈ t, d < 10) →
    (List.Lex (fun a b : Char => a < b) (s.map digitChar) (t.map digitChar) ↔
      List.Lex (fun a b : Nat => a < b) s t) := by
  intro s
  induction s with
  | nil =>
    intro t _ _
    cases t with
    | nil => simp
    | cons b t => exact iff_of_true List.Lex.nil List.Lex.nil
  | cons a s ih =>
    intro t hs ht
    cases t with
    | nil => simp
    | cons b t =>
      have ha : a < 10 := hs a (List.mem_cons_self a s)
      have hb : b < 10 := ht b (List.mem_cons_self b t)
      simp only [List.map_cons]
      rw [lex_cons_iff, lex_cons_iff, digitChar_lt_iff a ha b hb,
        digitChar_inj_iff a ha b hb,
        ih t (fun d hd => hs d (List.mem_cons_of_mem a hd))
          (fun d hd => ht d (List.mem_cons_of_mem b hd))]

theorem map_digitChar_inj : ∀ (s t : List Nat),
    (∀ d ∈ s, d < 10) → (∀ d ∈ t, d < 10) →
    (s.map digitChar = t.map digitChar ↔ s = t) := by
  intro s
  induction s with
  | nil =>
    intro t _ _
    cases t with
    | nil => simp
    | cons b t => simp
  | cons a s ih =>
    intro t hs ht
    cases t with
    | nil => simp
    | cons b t =>
      have ha : a < 10 := hs a (List.mem_cons_self a s)
      have hb : b < 10 := ht b (List.mem_cons_self b t)
      simp only [List.map_cons, List.cons.injEq]
      rw [digitChar_inj_iff a ha b hb,
        ih t (fun d hd => hs d (List.mem_cons_of_mem a hd))
          (fun d hd => ht d (List.mem_cons_of_mem b hd))]

theorem format010_length (n : Nat) : (format010 n).length = 10 := by
  show ((padDigits 10 n).map digitChar).length = 10
  rw [List.length_map, padDigits_length]

theorem strLexLt_format010_iff (m n : Nat) (hm : m < 10 ^ 10) (hn : n < 10 ^ 10) :
    strLexLt (format010 m) (format010 n) ↔ m < n := by
  show List.Lex (fun a b : Char => a < b)
      ((padDigits 10 m).map digitChar) ((padDigits 10 n).map digitChar) ↔ m < n
  rw [lex_map_digitChar _ _ (padDigits_digit_lt 10 m hm) (padDigits_digit_lt 10 n hn),
    lex_padDigits 10 m n hm hn]

theorem format010_inj (m n : Nat) (hm : m < 10 ^ 10) (hn : n < 10 ^ 10) :
    format010 m = format010 n ↔ m = n := by
  constructor
  · intro h
    have hdata : (padDigits 10 m).map digitChar = (padDigits 10 n).map digitChar :=
      congrArg String.data h
    exact (padDigits_inj 10 m n hm hn).mp
      ((map_digitChar_inj _ _ (padDigits_digit_lt 10 m hm)
        (padDigits_digit_lt 10 n hn)).mp hdata)
  · intro h
    rw [h]

/-- C2: saving a Collect sets sort_value to the zero-padded decimal
rendering of position with fixed width 10, and for records whose positions
are below 10 ^ 10 the lexicographic string comparison of the saved
sort_value fields agrees with numeric comparison of the positions (for
both the strict order and equality). -/
theorem C2_sort_value_encoding (a b : Collect)
    (ha : a.position < 10 ^ 10) (hb : b.position < 10 ^ 10) :
    (Collect.save a).sort_value = format010 a.position ∧
    ((Collect.save a).sort_value).length = 10 ∧
    (strLexLt (Collect.save a).sort_value (Collect.save b).sort_value ↔
      a.position < b.position) ∧
    ((Collect.save a).sort_value = (Collect.save b).sort_value ↔
      a.position = b.position) :=
  ⟨rfl, format010_length a.position,
    strLexLt_format010_iff a.position b.position ha hb,
    format010_inj a.position b.position ha hb⟩

/-- Sample membership records for the witnesses (sort_value deliberately
left blank before save). -/
def sampleCollectA : Collect := ⟨1, 10, 2, false, ""⟩

/-- Second sample membership record. -/
def sampleCollectB : Collect := ⟨1, 11, 30, false, ""⟩

theorem C2_sort_value_encoding_witness :
    (Collect.save sampleCollectA).sort_value = format010 sampleCollectA.position ∧
    ((Collect.save sampleCollectA).sort_value).length = 10 ∧
    (strLexLt (Collect.save sampleCollectA).sort_value
        (Collect.save sampleCollectB).sort_value ↔
      sampleCollectA.position < sampleCollectB.position) ∧
    ((Collect.save sampleCollectA).sort_value = (Collect.save sampleCollectB).sort_value ↔
      sampleCollectA.position = sampleCollectB.position) :=
  C2_sort_value_encoding sampleCollectA sampleCollectB (by decide) (by decide)

/-- The enumeration order that the repository declares for membership
records: Collect.Meta.ordering is the tuple (product, collection,
position), so records compare by product id first, then by collection id,
and by position only as the final tie-break key. -/
def collectMetaLe (a b : Collect) : Prop :=
  a.product < b.product ∨
    (a.product = b.product ∧
      (a.collection < b.collection ∨
        (a.collection = b.collection ∧ a.position ≤ b.position)))

instance : DecidableRel collectMetaLe := fun a b =>
  inferInstanceAs (Decidable (a.product < b.product ∨
    (a.product = b.product ∧
      (a.collection < b.collection ∨
        (a.collection = b.collection ∧ a.position ≤ b.position)))))

/-- positions_for, the index's ordered enumeration of one collection's
Collect records.  The records are the collection's rows; the order is the
one the repository declares, Collect.Meta.ordering = (product, collection,
position), embedded as an insertion sort under collectMetaLe (the sort
itself is performed by the database from that declaration). -/
def positions_for (index : List Collect) (coll : Nat) : List Collect :=
  List.insertionSort collectMetaLe (index.filter (fun c => c.collection == coll))

/-- Non-strict lexicographic order on the sort_value strings. -/
def sortValueLe (a b : Collect) : Prop :=
  a.sort_value = b.sort_value ∨ strLexLt a.sort_value b.sort_value

instance : DecidableRel strLexLt := fun s t =>
  inferInstanceAs (Decidable (List.Lex (fun a b : Char => a < b) s.data t.data))

instance : DecidableRel sortValueLe := fun a b =>
  inferInstanceAs (Decidable (a.sort_value = b.sort_value ∨ strLexLt a.sort_value b.sort_value))

/-- Sample membership index: two saved records of collection 1, the lower
position belonging to the higher product id. -/
def sampleIndex : List Collect :=
  [Collect.save ⟨1, 10, 2, false, ""⟩, Collect.save ⟨1, 11, 0, false, ""⟩]

/-- C3 is refuted on the code: Collect.Meta.ordering puts product before
position, so the ordered enumeration of a collection's records follows
product id, not position.  On an index of two saved records of collection
1 at (product 10, position 2) and (product 11, position 0) the enumeration
yields positions 2 then 0 and sort_values 0000000002 then 0000000000:
sorted neither by position ascending nor lexicographically by sort_value,
even though both records are saved, with positions below 10 ^ 10, and the
sort_value encoding itself orders them correctly (the last conjunct). -/
theorem C3_positions_for_divergence :
    (positions_for sampleIndex 1).map Collect.position = [2, 0] ∧
    (positions_for sampleIndex 1).map Collect.sort_value =
      ["0000000002", "0000000000"] ∧
    ¬ List.Sorted (fun a b : Collect => a.position ≤ b.position)
      (positions_for sampleIndex 1) ∧
    ¬ List.Sorted sortValueLe (positions_for sampleIndex 1) ∧
    (sampleIndex.all fun c =>
      decide (c.position < 10 ^ 10) && decide (c.sort_value = format010 c.position)) = true ∧
    strLexLt (format010 0) (format010 2) := by
  decide

/-- Python values that adjecant_products can place in its result dict: the
boolean False it is initialised with, None (which the docstrings promise
but the code never produces), or a product. -/
inductive PyVal where
  | pyFalse : PyVal
  | pyNone : PyVal
  | pyProduct : Product → PyVal
deriving DecidableEq

/-- The result dict of adjecant_products, with its next and previous keys. -/
structure AdjacentRes where
  next : PyVal
  previous : PyVal
deriving DecidableEq

/-- Python str.split on the slash separator, keeping empty segments. -/
def splitSlash (l : List Char) : List (List Char) :=
  l.foldr (fun c acc =>
    if c = '/' then [] :: acc else (c :: acc.headD []) :: acc.tail) [[]]

/-- request.path.split of adjecant_products, taking the last segment
(index -1; split always yields at least one segment). -/
def lastSegment (path : String) : String :=
  String.mk ((splitSlash path.data).getLastD [])

/-- The enumerate loop of adjecant_products: j is the running index into
the full product list.  The source guards the next index with
j + 1 < len(products) and the previous index with j - 1 >= 0 before
subscripting; the first guard-plus-subscript pair is embedded as the
optional lookup (some exactly when the guard holds), the second keeps the
explicit 1 <= j guard because Python's j - 1 may be negative. -/
def adjacentLoop (all : List Product) (handle : String) :
    Nat → List Product → AdjacentRes → AdjacentRes
  | _, [], res => res
  | j, p :: rest, res =>
    let res' :=
      if p.handle = handle then
        let res1 :=
          match all[j + 1]? with
          | some q => { res with next := PyVal.pyProduct q }
          | none => res
        if 1 ≤ j then
          match all[j - 1]? with
          | some q => { res1 with previous := PyVal.pyProduct q }
          | none => res1
        else res1
      else res
    adjacentLoop all handle (j + 1) rest res'

/-- adjecant_products of CustomCollection: both keys start as the boolean
False and each product whose handle equals the last segment of the request
path contributes its neighbours in the collection's product list. -/
def adjecant_products (products : List Product) (path : String) : AdjacentRes :=
  adjacentLoop products (lastSegment path) 0 products ⟨PyVal.pyFalse, PyVal.pyFalse⟩

/-- next_product of CustomCollection. -/
def next_product (products : List Product) (path : String) : PyVal :=
  (adjecant_products products path).next

/-- previous_product of CustomCollection. -/
def previous_product (products : List Product) (path : String) : PyVal :=
  (adjecant_products products path).previous

/-- The value adjecant_products ends up storing for an optional neighbour:
the product when one exists, else the initial boolean False. -/
def optAdj : Option Product → PyVal
  | some q => PyVal.pyProduct q
  | none => PyVal.pyFalse

theorem adjacentLoop_no_match (all : List Product) (handle : String) :
    ∀ (l : List Product) (j : Nat) (res : AdjacentRes),
      (∀ q ∈ l, q.handle ≠ handle) → adjacentLoop all handle j l res = res := by
  intro l
  induction l with
  | nil => intro j res _; rfl
  | cons p rest ih =>
    intro j res h
    have hp : p.handle ≠ handle := h p (List.mem_cons_self p rest)
    simp only [adjacentLoop, if_neg hp]
    exact ih (j + 1) res (fun q hq => h q (List.mem_cons_of_mem p hq))

theorem adjacentLoop_append (all : List Product) (handle : String) :
    ∀ (l1 l2 : List Product) (j : Nat) (res : AdjacentRes),
      adjacentLoop all handle j (l1 ++ l2) res =
        adjacentLoop all handle (j + l1.length) l2 (adjacentLoop all handle j l1 res) := by
  intro l1
  induction l1 with
  | nil => intro l2 j res; simp [adjacentLoop]
  | cons p rest ih =>
    intro l2 j res
    simp only [List.cons_append, List.length_cons, adjacentLoop, List.append_eq]
    rw [ih]
    have hj : j + (rest.length + 1) = j + 1 + rest.length := by omega
    rw [hj]

/-- C10: with the product identified by the last path segment occurring at
a unique place in the collection's product list, next_product is the
immediately following product and previous_product the immediately
preceding one; at the ends of the list the missing neighbour is the
boolean False, which is neither a product nor None. -/
theorem C10_adjacent_products (pre post : List Product) (p : Product) (path : String)
    (hmatch : p.handle = lastSegment path)
    (hpre : ∀ q ∈ pre, q.handle ≠ lastSegment path)
    (hpost : ∀ q ∈ post, q.handle ≠ lastSegment path) :
    next_product (pre ++ p :: post) path = optAdj post.head? ∧
    previous_product (pre ++ p :: post) path = optAdj pre.getLast? ∧
    (post = [] → next_product (pre ++ p :: post) path = PyVal.pyFalse ∧
      next_product (pre ++ p :: post) path ≠ PyVal.pyNone) ∧
    (pre = [] → previous_product (pre ++ p :: post) path = PyVal.pyFalse ∧
      previous_product (pre ++ p :: post) path ≠ PyVal.pyNone) := by
  have hcore : adjecant_products (pre ++ p :: post) path =
      ⟨optAdj post.head?, optAdj pre.getLast?⟩ := by
    unfold adjecant_products
    rw [adjacentLoop_append, adjacentLoop_no_match _ _ pre 0 _ hpre, Nat.zero_add]
    have hnext : (pre ++ p :: post)[pre.length + 1]? = post.head? := by
      rw [List.getElem?_append_right (by omega : pre.length ≤ pre.length + 1)]
      have h1 : pre.length + 1 - pre.length = 1 := by omega
      rw [h1, List.getElem?_cons_succ]
      exact (List.head?_eq_getElem? post).symm
    simp only [adjacentLoop, if_pos hmatch, hnext]
    by_cases hp1 : 1 ≤ pre.length
    · have hprev : (pre ++ p :: post)[pre.length - 1]? = pre.getLast? := by
        rw [List.getElem?_append_left (by omega : pre.length - 1 < pre.length)]
        exact (List.getLast?_eq_getElem? pre).symm
      rw [if_pos hp1, hprev,
        adjacentLoop_no_match _ _ post (pre.length + 1) _ hpost]
      cases hh : post.head? <;> cases hl : pre.getLast? <;> rfl
    · have hpre0 : pre = [] := List.length_eq_zero.mp (by omega)
      subst hpre0
      rw [if_neg hp1, adjacentLoop_no_match _ _ post (List.length ([] : List Product) + 1) _ hpost]
      cases hh : post.head? <;> rfl
  have hnexteq : next_product (pre ++ p :: post) path = optAdj post.head? := by
    unfold next_product
    rw [hcore]
  have hpreveq : previous_product (pre ++ p :: post) path = optAdj pre.getLast? := by
    unfold previous_product
    rw [hcore]
  refine ⟨hnexteq, hpreveq, ?_, ?_⟩
  · rintro rfl
    rw [hnexteq]
    exact ⟨rfl, by simp [optAdj]⟩
  · rintro rfl
    rw [hpreveq]
    exact ⟨rfl, by simp [optAdj]⟩

/-- Sample products for the adjacency witness. -/
def productA : Product := ⟨1, "Auckland", "poster", "Acme", "auckland", []⟩

/-- Second sample product; its handle is the last segment of the sample
request path. -/
def productB : Product := ⟨2, "Berlin", "poster", "Acme", "berlin", []⟩

/-- Third sample product. -/
def productC : Product := ⟨3, "Cairo", "poster", "Acme", "cairo", []⟩

theorem C10_adjacent_products_witness :
    next_product ([productA] ++ productB :: [productC])
        "/collections/cityscapes/products/berlin" = optAdj [productC].head? ∧
    previous_product ([productA] ++ productB :: [productC])
        "/collections/cityscapes/products/berlin" = optAdj [productA].getLast? ∧
    ([productC] = [] → next_product ([productA] ++ productB :: [productC])
        "/collections/cityscapes/products/berlin" = PyVal.pyFalse ∧
      next_product ([productA] ++ productB :: [productC])
        "/collections/cityscapes/products/berlin" ≠ PyVal.pyNone) ∧
    ([productA] = [] → previous_product ([productA] ++ productB :: [productC])
        "/collections/cityscapes/products/berlin" = PyVal.pyFalse ∧
      previous_product ([productA] ++ productB :: [productC])
        "/collections/cityscapes/products/berlin" ≠ PyVal.pyNone) :=
  C10_adjacent_products [productA] [productC] productB
    "/collections/cityscapes/products/berlin" (by decide) (by decide) (by decide)
